import Mathlib

/-!
Verification of the reweighting core of espfit, a shallow embedding of
`espfit/utils/sampler/reweight.py` (class `SetupSamplerReweight`).

Conventions of the embedding:
* machine floats become real numbers, so identities that the spec states
  "within floating tolerance" are proved exactly;
* a Python exception becomes an `Except.error` carrying the kind of the
  exception, and the mutation of `self.weights` that happened before the
  exception is retained, mirroring in-place mutation of the object;
* the Python dict `self.weights` becomes an insertion-ordered association
  list, with overwrite-in-place update semantics;
* the empty tensor mean `torch.mean(torch.tensor([]))`, which is NaN and not
  an exception, becomes `none` in an `Option` result;
* external collaborators (the simulation contexts, mdtraj, the observable
  predictor) are modelled by the data the core reads from them: a sampler
  carries the frames of its loaded trajectory and its potential-energy
  function in kcal/mol.
-/

namespace Espfit

/-- A sampler object as consumed by `SetupSamplerReweight`.
The fields are exactly the attributes the core reads: `target_name`,
the scalar kelvin value `temperature` (the source reads
`sampler.temperature._value`), the positions of the frames of the trajectory
loaded from the output directory of the sampler, and the potential energy in
kcal/mol that the simulation context of the sampler reports after the
positions of a frame are set on it. -/
structure Sampler (Pos : Type) where
  target_name : String
  temperature : ℝ
  frames : List Pos
  energy : Pos → ℝ

/-- Modelled from the spec: `KB_T_KCALPERMOL`, the Boltzmann constant in
kcal/mol per kelvin, imported by the source from `espfit.utils.units`, a
module of this repository whose source is not available here. The spec fixes
it as the Boltzmann constant expressed in the energy unit kcal/mol; no claim
depends on its numerical value. -/
noncomputable def KB_T_KCALPERMOL : ℝ := 0.0019872041

/-- One value of the `self.weights` mapping: the stored effective sample size
and the normalized weight vector of one system. -/
structure WeightRecord where
  neff : ℝ
  weights : List ℝ

/-- The `log_w` list built by the frame loop of `get_effective_sample_size`
(lines 86 to 98 of the source): for each frame, the potential energy of the
candidate context minus the one of the reference context at the positions of
that frame, in kcal/mol, times `-1 * beta`, with
`beta = 1 / (KB_T_KCALPERMOL * temp0)` computed once from the temperature of
the reference sampler. -/
noncomputable def logWeights {Pos : Type} (s t : Sampler Pos) : List ℝ :=
  s.frames.map (fun x =>
    -1 * (1 / (KB_T_KCALPERMOL * s.temperature)) * (t.energy x - s.energy x))

/-- The per-system body of the loop of `get_effective_sample_size`
(lines 78 to 107 of the source): the elementwise exponential of `log_w`
normalized by its sum, `w_i = np.exp(log_w) / np.sum(np.exp(log_w))`, and
`neff = np.sum(w_i) ** 2 / np.sum(w_i ** 2) / len(w_i)`. -/
noncomputable def computeWeightRecord {Pos : Type} (s t : Sampler Pos) : WeightRecord :=
  let expw := (logWeights s t).map Real.exp
  let w_i := expw.map (fun e => e / expw.sum)
  { neff := w_i.sum ^ 2 / (w_i.map (fun x => x ^ 2)).sum / w_i.length
    weights := w_i }

/-- Overwrite-or-append update of an insertion-ordered association list,
the Python dict assignment `self.weights[name] = record`. -/
def updateAssoc (m : List (String × WeightRecord)) (k : String) (v : WeightRecord) :
    List (String × WeightRecord) :=
  match m with
  | [] => [(k, v)]
  | (k2, v2) :: rest =>
    if k2 = k then (k, v) :: rest else (k2, v2) :: updateAssoc rest k v

/-- The state of a `SetupSamplerReweight` object: `samplers` starts as
`None` (`none`) until the caller configures it, and `weights` starts as the
empty dict. -/
structure Session (Pos : Type) where
  samplers : Option (List (Sampler Pos))
  weights : List (String × WeightRecord)

/-- The `for sampler, temporary_sampler in zip(...)` loop of
`get_effective_sample_size`. Each iteration first asserts that the two
temperatures are exactly equal, raising an AssertionError (second component
`some msg`) before computing anything for that pair, and otherwise stores the
computed weight record under the target name of the reference sampler.
Updates made before a raise are retained, as for in-place dict mutation. -/
noncomputable def essLoop {Pos : Type} (w : List (String × WeightRecord)) :
    List (Sampler Pos × Sampler Pos) → List (String × WeightRecord) × Option String
  | [] => (w, none)
  | (s, t) :: rest =>
    if s.temperature = t.temperature then
      essLoop (updateAssoc w s.target_name (computeWeightRecord s t)) rest
    else (w, some "AssertionError: temperature mismatch")

/-- Python `min` of a list, defined on nonempty lists; the `[]` case is never
reached by the embedding (the source would raise before evaluating it). -/
noncomputable def listMin : List ℝ → ℝ
  | [] => 0
  | x :: xs => xs.foldl min x

/-- The method `get_effective_sample_size(self, temporary_samplers)`.
If `self.samplers is None` it returns the sentinel -1. Otherwise it runs the
zip loop; on a temperature assertion failure the exception propagates with
the partially updated weights retained. After a loop that ran at least once,
`neffs` holds the `neff` of every entry of `self.weights` (the whole dict,
not only the pairs of this pass) and the minimum is returned; if the zip was
empty the local variable `neffs` was never bound and the source raises
UnboundLocalError. -/
noncomputable def get_effective_sample_size {Pos : Type} (st : Session Pos)
    (temporary_samplers : List (Sampler Pos)) : Session Pos × Except String ℝ :=
  match st.samplers with
  | none => (st, Except.ok (-1))
  | some samplers =>
    let pairs := samplers.zip temporary_samplers
    let res := essLoop st.weights pairs
    match res.2 with
    | some e => ({ st with weights := res.1 }, Except.error e)
    | none =>
      if pairs.isEmpty then
        ({ st with weights := res.1 }, Except.error "UnboundLocalError: neffs")
      else
        ({ st with weights := res.1 },
          Except.ok (listMin (res.1.map (fun p => p.2.neff))))

/-- The weight-selection step of `_compute_weighted_observable` (lines 234 to
237 of the source): the condition `if self.weights.keys():` tests whether the
whole weight cache is nonempty; in that branch the record is looked up by the
current target name, a missing key raising KeyError; only an entirely empty
cache leads to the unweighted call `compute_jcouplings(weights=None)`.
The result is the weights argument handed to the observable predictor:
`some w` for a weighted prediction, `none` for the unweighted one. -/
def compute_weighted_observable (weights : List (String × WeightRecord))
    (target_name : String) : Except String (Option (List ℝ)) :=
  if weights.isEmpty then Except.ok none
  else
    match weights.lookup target_name with
    | some r => Except.ok (some r.weights)
    | none => Except.error "KeyError"

/-- One experimental measurement entry, the inner dict of the experiment
record: `value`, `operator` and `error` may each be missing (`None`). -/
structure Measurement where
  value : Option ℚ
  operator : Option String
  error : Option ℚ

/-- One predicted observable entry: mean and standard deviation. -/
structure PredVal where
  avg : ℚ
  std : ℚ

/-- The literal list of operators the loss loop refuses to use. -/
def skipOps : List String := [">", "<", ">=", "<=", "~"]

/-- The skip condition of `_compute_loss_per_system` (line 158 of the
source): the operator is one of the five bound operators, or the value is
missing. A missing operator (`None`) is not in the list, as in Python. -/
def skipMeasurement (m : Measurement) : Bool :=
  (match m.operator with
   | some op => skipOps.contains op
   | none => false) || m.value.isNone

/-- The contribution of one used measurement (lines 162 to 174 of the
source): a missing experimental error defaults to 0.5, and the term is
`(pred_avg - exp_value) ^ 2 / (exp_error ^ 2 + pred_std ^ 2)`. -/
def lossTerm (exp_value : ℚ) (exp_error : Option ℚ) (p : PredVal) : ℚ :=
  let err := exp_error.getD (1 / 2)
  (p.avg - exp_value) ^ 2 / (err ^ 2 + p.std ^ 2)

/-- The positional lookup `list(pred.values())[resi_index][key]`: an index
beyond the predicted rows raises IndexError, a missing key raises KeyError. -/
def lookupPred (pred : List (List (String × PredVal))) (i : Nat) (key : String) :
    Except String PredVal :=
  match pred[i]? with
  | none => Except.error "IndexError"
  | some row =>
    match row.lookup key with
    | none => Except.error "KeyError"
    | some p => Except.ok p

/-- The inner loop of `_compute_loss_per_system` over the measurements of
one structural unit, in iteration order, collecting the loss terms of the
used measurements. Whenever a measurement is not skipped its value is
present, so `getD 0` reads the actual value. -/
def rowTerms (pred : List (List (String × PredVal))) (i : Nat) :
    List (String × Measurement) → Except String (List ℚ)
  | [] => Except.ok []
  | (key, m) :: rest =>
    if skipMeasurement m then rowTerms pred i rest
    else
      match lookupPred pred i key with
      | Except.error e => Except.error e
      | Except.ok p =>
        match rowTerms pred i rest with
        | Except.error e => Except.error e
        | Except.ok ts => Except.ok (lossTerm (m.value.getD 0) m.error p :: ts)

/-- The outer loop of `_compute_loss_per_system` over the structural units of
the experiment record, with `resi_index` counting positions from 0. -/
def allTerms (pred : List (List (String × PredVal))) :
    Nat → List (List (String × Measurement)) → Except String (List ℚ)
  | _, [] => Except.ok []
  | i, row :: rest =>
    match rowTerms pred i row with
    | Except.error e => Except.error e
    | Except.ok ts =>
      match allTerms pred (i + 1) rest with
      | Except.error e => Except.error e
      | Except.ok us => Except.ok (ts ++ us)

/-- Mean of `torch.mean(torch.tensor(l))`: the mean of an empty tensor is
NaN, not an exception, modelled as `none`. -/
def torchMean (l : List ℚ) : Option ℚ :=
  match l with
  | [] => none
  | _ :: _ => some (l.sum / l.length)

/-- The method `_compute_loss_per_system`, given the experiment record (the
outer dict values in iteration order) and the predicted observable rows:
collect the terms of the used measurements, then reduce by the tensor mean.
An IndexError or KeyError of the positional join propagates. -/
def compute_loss_per_system (exp : List (List (String × Measurement)))
    (pred : List (List (String × PredVal))) : Except String (Option ℚ) :=
  match allTerms pred 0 exp with
  | Except.error e => Except.error e
  | Except.ok ts => Except.ok (torchMean ts)

/-! Concrete fixtures used by the witness and counterexample theorems. -/

/-- A reference sampler with one frame and a potential that is zero
everywhere, at 300 kelvin. -/
noncomputable def sEx : Sampler Unit :=
  { target_name := "A", temperature := 300, frames := [()], energy := fun _ => 0 }

/-- A candidate sampler matching `sEx` in temperature and energies. -/
noncomputable def tEx : Sampler Unit :=
  { target_name := "Atmp", temperature := 300, frames := [()], energy := fun _ => 0 }

/-- A candidate sampler whose temperature differs from the one of `sEx`. -/
noncomputable def tBad : Sampler Unit :=
  { target_name := "Abad", temperature := 301, frames := [()], energy := fun _ => 0 }

/-- A stale weight record, stored under a target name no sampler of the
current pass has. -/
noncomputable def oldRec : WeightRecord :=
  { neff := 1 / 4, weights := [1] }

/-- A session whose weight cache holds a stale record for another target. -/
noncomputable def st3 : Session Unit :=
  { samplers := some [sEx], weights := [("old", oldRec)] }

/-- A session configured with an empty sampler list. -/
noncomputable def st6 : Session Unit :=
  { samplers := some [], weights := [] }

/-- A session with one sampler and an empty weight cache. -/
noncomputable def st8 : Session Unit :=
  { samplers := some [sEx], weights := [] }

/-- A session whose samplers were never configured. -/
def stNone : Session Unit :=
  { samplers := none, weights := [] }

/-- A measurement carrying a lower-bound operator. -/
def mGt : Measurement :=
  { value := some 3, operator := some ">", error := some 1 }

/-- A used measurement with a missing experimental error. -/
def mNoErr : Measurement :=
  { value := some 2, operator := none, error := none }

/-- A sample predicted value. -/
def pEx : PredVal :=
  { avg := 4 / 5, std := 1 / 10 }

/-- The experiment record of the end-to-end loss scenario: one structural
unit with two measurements, values 1.0 (error 0.2) and 2.0 (error missing). -/
def expEx : List (List (String × Measurement)) :=
  [[("k1", { value := some 1, operator := none, error := some (1 / 5) }),
    ("k2", { value := some 2, operator := none, error := none })]]

/-- The predicted observable of the end-to-end loss scenario: 0.8 with
std 0.1, and 2.0 with std 0.0, positionally aligned with `expEx`. -/
def predEx : List (List (String × PredVal)) :=
  [[("k1", { avg := 4 / 5, std := 1 / 10 }),
    ("k2", { avg := 2, std := 0 })]]

/-- An experiment record all of whose measurements are skipped: one missing
value and one lower-bound operator. -/
def expN : List (List (String × Measurement)) :=
  [[("k1", { value := none, operator := none, error := none })],
   [("k2", mGt)]]

/-- The predicted value joined to the second measurement of the scenario. -/
def pK2 : PredVal :=
  { avg := 2, std := 0 }

/-! Helper lemmas on the association list and the zip loop. -/

theorem lookup_updateAssoc_self (m : List (String × WeightRecord)) (k : String)
    (v : WeightRecord) : (updateAssoc m k v).lookup k = some v := by
  induction m with
  | nil => simp [updateAssoc, List.lookup]
  | cons p rest ih =>
    obtain ⟨k2, v2⟩ := p
    by_cases h : k2 = k
    · subst h
      simp [updateAssoc, List.lookup]
    · simp only [updateAssoc, if_neg h, List.lookup]
      have hbeq : (k == k2) = false := by
        simp [beq_eq_false_iff_ne]
        exact fun hkk => h hkk.symm
      rw [hbeq]
      exact ih

theorem lookup_updateAssoc_ne (m : List (String × WeightRecord)) (k k2 : String)
    (v : WeightRecord) (h : k ≠ k2) :
    (updateAssoc m k v).lookup k2 = m.lookup k2 := by
  induction m with
  | nil =>
    simp only [updateAssoc, List.lookup]
    have hbeq : (k2 == k) = false := by
      simp [beq_eq_false_iff_ne]
      exact fun hkk => h hkk.symm
    rw [hbeq]
  | cons p rest ih =>
    obtain ⟨k3, v3⟩ := p
    by_cases h3 : k3 = k
    · subst h3
      have hbeq : (k2 == k3) = false := by
        simp [beq_eq_false_iff_ne]
        exact fun hkk => h hkk.symm
      simp only [updateAssoc, if_pos rfl, List.lookup, hbeq]
    · simp only [updateAssoc, if_neg h3, List.lookup]
      cases hb : k2 == k3
      · exact ih
      · rfl

theorem updateAssoc_ne_nil (m : List (String × WeightRecord)) (k : String)
    (v : WeightRecord) : updateAssoc m k v ≠ [] := by
  cases m with
  | nil => simp [updateAssoc]
  | cons p rest =>
    obtain ⟨k2, v2⟩ := p
    by_cases h : k2 = k
    · simp [updateAssoc, if_pos h]
    · simp [updateAssoc, if_neg h]

theorem essLoop_snd_eq_none {Pos : Type} (w : List (String × WeightRecord))
    (pairs : List (Sampler Pos × Sampler Pos))
    (hT : ∀ p ∈ pairs, p.1.temperature = p.2.temperature) :
    (essLoop w pairs).2 = none := by
  induction pairs generalizing w with
  | nil => rfl
  | cons p rest ih =>
    obtain ⟨s, t⟩ := p
    have hst : s.temperature = t.temperature := hT (s, t) (List.mem_cons_self _ _)
    simp only [essLoop, if_pos hst]
    exact ih _ fun q hq => hT q (List.mem_cons_of_mem _ hq)

theorem essLoop_append {Pos : Type} (w : List (String × WeightRecord))
    (l1 l2 : List (Sampler Pos × Sampler Pos)) (h : (essLoop w l1).2 = none) :
    essLoop w (l1 ++ l2) = essLoop (essLoop w l1).1 l2 := by
  induction l1 generalizing w with
  | nil => rfl
  | cons p rest ih =>
    obtain ⟨s, t⟩ := p
    by_cases hst : s.temperature = t.temperature
    · simp only [List.cons_append, essLoop, if_pos hst] at h ⊢
      exact ih _ h
    · simp only [essLoop, if_neg hst] at h
      exact absurd h (by simp)

theorem essLoop_lookup_not_mem {Pos : Type} (w : List (String × WeightRecord))
    (pairs : List (Sampler Pos × Sampler Pos)) (k : String)
    (h : ∀ p ∈ pairs, p.1.target_name ≠ k) :
    (essLoop w pairs).1.lookup k = w.lookup k := by
  induction pairs generalizing w with
  | nil => rfl
  | cons p rest ih =>
    obtain ⟨s, t⟩ := p
    by_cases hst : s.temperature = t.temperature
    · simp only [essLoop, if_pos hst]
      rw [ih _ fun q hq => h q (List.mem_cons_of_mem _ hq)]
      exact lookup_updateAssoc_ne _ _ _ _ (h (s, t) (List.mem_cons_self _ _))
    · simp only [essLoop, if_neg hst]

theorem essLoop_fst_ne_nil {Pos : Type} (w : List (String × WeightRecord))
    (pairs : List (Sampler Pos × Sampler Pos)) (h : w ≠ []) :
    (essLoop w pairs).1 ≠ [] := by
  induction pairs generalizing w with
  | nil => exact h
  | cons p rest ih =>
    obtain ⟨s, t⟩ := p
    by_cases hst : s.temperature = t.temperature
    · simp only [essLoop, if_pos hst]
      exact ih _ (updateAssoc_ne_nil _ _ _)
    · simp only [essLoop, if_neg hst]
      exact h

theorem essLoop_fst_ne_nil_of_pairs {Pos : Type} (w : List (String × WeightRecord))
    (s t : Sampler Pos) (rest : List (Sampler Pos × Sampler Pos))
    (hst : s.temperature = t.temperature) :
    (essLoop w ((s, t) :: rest)).1 ≠ [] := by
  simp only [essLoop, if_pos hst]
  exact essLoop_fst_ne_nil _ _ (updateAssoc_ne_nil _ _ _)

theorem essLoop_stored_lookup {Pos : Type} (w : List (String × WeightRecord))
    (l1 l2 : List (Sampler Pos × Sampler Pos)) (s t : Sampler Pos)
    (hT1 : ∀ p ∈ l1, p.1.temperature = p.2.temperature)
    (hst : s.temperature = t.temperature)
    (hl2 : ∀ p ∈ l2, p.1.target_name ≠ s.target_name) :
    (essLoop w (l1 ++ (s, t) :: l2)).1.lookup s.target_name
      = some (computeWeightRecord s t) := by
  rw [essLoop_append w l1 _ (essLoop_snd_eq_none w l1 hT1)]
  set w1 := (essLoop w l1).1
  simp only [essLoop, if_pos hst]
  rw [essLoop_lookup_not_mem _ _ _ hl2]
  exact lookup_updateAssoc_self _ _ _

theorem get_ess_none {Pos : Type} (st : Session Pos) (ts : List (Sampler Pos))
    (hs : st.samplers = none) :
    get_effective_sample_size st ts = (st, Except.ok (-1)) := by
  unfold get_effective_sample_size
  rw [hs]

theorem get_ess_fst {Pos : Type} (st : Session Pos) (ts ss : List (Sampler Pos))
    (hs : st.samplers = some ss) :
    (get_effective_sample_size st ts).1
      = { st with weights := (essLoop st.weights (ss.zip ts)).1 } := by
  unfold get_effective_sample_size
  rw [hs]
  cases h2 : (essLoop st.weights (ss.zip ts)).2 with
  | none =>
    simp only [h2]
    by_cases hnil : (ss.zip ts).isEmpty <;> simp [hnil]
  | some e => simp [h2]

theorem get_ess_snd_err {Pos : Type} (st : Session Pos) (ts ss : List (Sampler Pos))
    (e : String) (hs : st.samplers = some ss)
    (h2 : (essLoop st.weights (ss.zip ts)).2 = some e) :
    (get_effective_sample_size st ts).2 = Except.error e := by
  unfold get_effective_sample_size
  rw [hs]
  simp [h2]

theorem get_ess_snd_empty {Pos : Type} (st : Session Pos) (ts ss : List (Sampler Pos))
    (hs : st.samplers = some ss) (hnil : ss.zip ts = []) :
    (get_effective_sample_size st ts).2 = Except.error "UnboundLocalError: neffs" := by
  unfold get_effective_sample_size
  rw [hs]
  simp [hnil, essLoop]

theorem get_ess_snd_ok {Pos : Type} (st : Session Pos) (ts ss : List (Sampler Pos))
    (hs : st.samplers = some ss) (hne : ss.zip ts ≠ [])
    (h2 : (essLoop st.weights (ss.zip ts)).2 = none) :
    (get_effective_sample_size st ts).2
      = Except.ok (listMin ((essLoop st.weights (ss.zip ts)).1.map (fun p => p.2.neff))) := by
  unfold get_effective_sample_size
  rw [hs]
  simp only [h2]
  have : (ss.zip ts).isEmpty = false := by
    cases h : ss.zip ts with
    | nil => exact absurd h hne
    | cons a l => rfl
  simp [this]

theorem foldl_min_le_init (l : List ℝ) (a : ℝ) : l.foldl min a ≤ a := by
  induction l generalizing a with
  | nil => exact le_refl a
  | cons x xs ih => exact le_trans (ih (min a x)) (min_le_left a x)

theorem foldl_min_le_mem (l : List ℝ) : ∀ (a x : ℝ), x ∈ l → l.foldl min a ≤ x := by
  induction l with
  | nil => intro a x hx; cases hx
  | cons y ys ih =>
    intro a x hx
    rcases List.mem_cons.mp hx with h | h
    · subst h
      exact le_trans (foldl_min_le_init ys (min a x)) (min_le_right a x)
    · exact ih (min a y) x h

theorem foldl_min_mem (l : List ℝ) (a : ℝ) : l.foldl min a = a ∨ l.foldl min a ∈ l := by
  induction l generalizing a with
  | nil => exact Or.inl rfl
  | cons x xs ih =>
    rcases ih (min a x) with h | h
    · rcases min_cases a x with ⟨hm, _⟩ | ⟨hm, _⟩
      · exact Or.inl (by rw [List.foldl_cons, h, hm])
      · exact Or.inr (by rw [List.foldl_cons, h, hm]; exact List.mem_cons_self _ _)
    · exact Or.inr (List.mem_cons_of_mem _ h)

theorem listMin_le (l : List ℝ) (x : ℝ) (hx : x ∈ l) : listMin l ≤ x := by
  cases l with
  | nil => cases hx
  | cons y ys =>
    rcases List.mem_cons.mp hx with h | h
    · subst h
      exact foldl_min_le_init ys x
    · exact foldl_min_le_mem ys y x h

theorem listMin_mem (l : List ℝ) (h : l ≠ []) : listMin l ∈ l := by
  cases l with
  | nil => exact absurd rfl h
  | cons y ys =>
    rcases foldl_min_mem ys y with h2 | h2
    · rw [listMin, h2]
      exact List.mem_cons_self _ _
    · exact List.mem_cons_of_mem _ (by rw [listMin]; exact h2)

theorem sum_map_div (l : List ℝ) (c : ℝ) : (l.map (fun x => x / c)).sum = l.sum / c := by
  induction l with
  | nil => simp
  | cons x xs ih => simp [ih, add_div]

theorem sum_exp_pos (l : List ℝ) (h : l ≠ []) : 0 < (l.map Real.exp).sum := by
  cases l with
  | nil => exact absurd rfl h
  | cons x xs =>
    simp only [List.map_cons, List.sum_cons]
    have hrest : 0 ≤ (xs.map Real.exp).sum := by
      apply List.sum_nonneg
      intro a ha
      simp only [List.mem_map] at ha
      obtain ⟨b, _, rfl⟩ := ha
      exact (Real.exp_pos b).le
    nlinarith [Real.exp_pos x]

theorem sum_sq_nonneg (l : List ℝ) : 0 ≤ (l.map (fun x => x ^ 2)).sum := by
  apply List.sum_nonneg
  intro a ha
  simp only [List.mem_map] at ha
  obtain ⟨b, _, rfl⟩ := ha
  positivity

theorem list_sq_sum_le (l : List ℝ) :
    l.sum ^ 2 ≤ l.length * (l.map (fun x => x ^ 2)).sum := by
  induction l with
  | nil => simp
  | cons x xs ih =>
    simp only [List.sum_cons, List.map_cons, List.length_cons]
    push_cast
    have hq : 0 ≤ (xs.map (fun x => x ^ 2)).sum := sum_sq_nonneg xs
    by_cases hxs : xs = []
    · subst hxs
      simp
    · have hn1 : (1:ℝ) ≤ xs.length := by
        have := List.length_pos.mpr hxs
        exact_mod_cast this
      have key : (xs.length:ℝ) * (((xs.length:ℝ) + 1) * (x ^ 2 + (xs.map (fun x => x ^ 2)).sum)
            - (x + xs.sum) ^ 2)
          = ((xs.length:ℝ) * x - xs.sum) ^ 2
            + ((xs.length:ℝ) + 1)
              * ((xs.length:ℝ) * (xs.map (fun x => x ^ 2)).sum - xs.sum ^ 2) := by
        ring
      nlinarith [key, sq_nonneg ((xs.length:ℝ) * x - xs.sum), ih, hn1, hq]

theorem sum_sq_pos (l : List ℝ) (hne : l ≠ []) (hpos : ∀ x ∈ l, 0 < x) :
    0 < (l.map (fun x => x ^ 2)).sum := by
  cases l with
  | nil => exact absurd rfl hne
  | cons x xs =>
    simp only [List.map_cons, List.sum_cons]
    have hx : 0 < x := hpos x (List.mem_cons_self _ _)
    nlinarith [sum_sq_nonneg xs]

/-! Structural facts about `computeWeightRecord`. -/

theorem cwr_weights_def {Pos : Type} (s t : Sampler Pos) :
    (computeWeightRecord s t).weights
      = ((logWeights s t).map Real.exp).map
          (fun e => e / ((logWeights s t).map Real.exp).sum) := rfl

theorem cwr_neff_def {Pos : Type} (s t : Sampler Pos) :
    (computeWeightRecord s t).neff
      = (computeWeightRecord s t).weights.sum ^ 2
          / ((computeWeightRecord s t).weights.map (fun x => x ^ 2)).sum
          / (computeWeightRecord s t).weights.length := rfl

theorem logWeights_ne_nil {Pos : Type} (s t : Sampler Pos) (h : s.frames ≠ []) :
    logWeights s t ≠ [] := by
  simp only [logWeights, ne_eq, List.map_eq_nil_iff]
  exact h

theorem cwr_weights_length {Pos : Type} (s t : Sampler Pos) :
    (computeWeightRecord s t).weights.length = s.frames.length := by
  simp [cwr_weights_def, logWeights]

theorem cwr_weights_sum_one {Pos : Type} (s t : Sampler Pos) (h : s.frames ≠ []) :
    (computeWeightRecord s t).weights.sum = 1 := by
  rw [cwr_weights_def, sum_map_div]
  exact div_self (ne_of_gt (sum_exp_pos _ (logWeights_ne_nil s t h)))

theorem cwr_weights_pos {Pos : Type} (s t : Sampler Pos) (h : s.frames ≠ [])
    (x : ℝ) (hx : x ∈ (computeWeightRecord s t).weights) : 0 < x := by
  rw [cwr_weights_def] at hx
  simp only [List.mem_map] at hx
  obtain ⟨e, ⟨l, _, rfl⟩, rfl⟩ := hx
  exact div_pos (Real.exp_pos l) (sum_exp_pos _ (logWeights_ne_nil s t h))

theorem cwr_sumsq_pos {Pos : Type} (s t : Sampler Pos) (h : s.frames ≠ []) :
    0 < ((computeWeightRecord s t).weights.map (fun x => x ^ 2)).sum := by
  apply sum_sq_pos
  · intro hw
    have := cwr_weights_length s t
    rw [hw] at this
    exact h (List.eq_nil_of_length_eq_zero this.symm)
  · exact cwr_weights_pos s t h

theorem cwr_neff_eq_inv {Pos : Type} (s t : Sampler Pos) (h : s.frames ≠ []) :
    (computeWeightRecord s t).neff
      = 1 / (s.frames.length
          * ((computeWeightRecord s t).weights.map (fun x => x ^ 2)).sum) := by
  rw [cwr_neff_def, cwr_weights_sum_one s t h, cwr_weights_length, one_pow, div_div,
    mul_comm]

theorem cwr_neff_pos {Pos : Type} (s t : Sampler Pos) (h : s.frames ≠ []) :
    0 < (computeWeightRecord s t).neff := by
  rw [cwr_neff_eq_inv s t h]
  have hN : (0:ℝ) < s.frames.length := by
    have := List.length_pos.mpr h
    exact_mod_cast this
  exact div_pos one_pos (mul_pos hN (cwr_sumsq_pos s t h))

theorem cwr_neff_le_one {Pos : Type} (s t : Sampler Pos) (h : s.frames ≠ []) :
    (computeWeightRecord s t).neff ≤ 1 := by
  rw [cwr_neff_eq_inv s t h]
  have hN : (0:ℝ) < s.frames.length := by
    have := List.length_pos.mpr h
    exact_mod_cast this
  apply div_le_one_of_le₀
  · have hcs := list_sq_sum_le (computeWeightRecord s t).weights
    rw [cwr_weights_sum_one s t h, cwr_weights_length] at hcs
    simpa using hcs
  · exact le_of_lt (mul_pos hN (cwr_sumsq_pos s t h))

/-! Evaluation of the single-frame, identical-energy fixtures. -/

theorem cwr_ex_eval : computeWeightRecord sEx tEx = { neff := 1, weights := [1] } := by
  simp [computeWeightRecord, logWeights, sEx, tEx, Real.exp_zero]

/-! Claim theorems. -/

/-- C6 (amended): calling `get_effective_sample_size` before any samplers have
been configured, when `self.samplers` is still `None`, returns the sentinel -1
without raising and without touching the weight cache. An empty configured
sampler list does not take this path (see the counterexample theorem). -/
theorem ess_unconfigured_returns_sentinel {Pos : Type} (st : Session Pos)
    (ts : List (Sampler Pos)) (hs : st.samplers = none) :
    get_effective_sample_size st ts = (st, Except.ok (-1)) :=
  get_ess_none st ts hs

/-- C6 (witness): the sentinel path evaluated on the unconfigured session. -/
theorem ess_unconfigured_returns_sentinel_witness :
    stNone.samplers = none ∧
    get_effective_sample_size stNone [] = (stNone, Except.ok (-1)) :=
  ⟨rfl, ess_unconfigured_returns_sentinel stNone [] rfl⟩

/-- C6 (counterexample): with zero configured systems given as an empty
sampler list, the call raises (the local variable holding the effective
sample sizes is never bound) instead of returning the sentinel -1. -/
theorem ess_empty_sampler_list_raises :
    (get_effective_sample_size st6 ([] : List (Sampler Unit))).2
      = Except.error "UnboundLocalError: neffs" ∧
    (get_effective_sample_size st6 ([] : List (Sampler Unit))).2
      ≠ Except.ok (-1) := by
  have h := get_ess_snd_empty st6 [] [] rfl rfl
  exact ⟨h, by rw [h]; simp⟩

/-- C4 (counterexample): with an empty weight cache the prediction for target
A is unweighted, but a cached record for a different target makes the lookup
of target A raise a KeyError instead of falling back to the unweighted
prediction, so the presence of weights for other target identifiers does
change the per-target choice. -/
theorem observable_choice_depends_on_other_targets :
    compute_weighted_observable [] "A" = Except.ok none ∧
    compute_weighted_observable [("other", oldRec)] "A" = Except.error "KeyError" ∧
    (Except.error "KeyError" : Except String (Option (List ℝ))) ≠ Except.ok none := by
  refine ⟨rfl, ?_, by simp⟩
  simp [compute_weighted_observable, List.lookup]

/-- C4 (amended): the predicted observable is computed with cached weights
whenever the weight cache is nonempty, looking the record up by the target
identifier of the current system and raising a KeyError when that identifier
has no record; the unweighted prediction is used exactly when the whole
cache is empty. -/
theorem observable_weight_choice (w : List (String × WeightRecord)) (tn : String) :
    (w = [] → compute_weighted_observable w tn = Except.ok none) ∧
    (∀ r, w ≠ [] → w.lookup tn = some r →
      compute_weighted_observable w tn = Except.ok (some r.weights)) ∧
    (w ≠ [] → w.lookup tn = none →
      compute_weighted_observable w tn = Except.error "KeyError") := by
  refine ⟨?_, ?_, ?_⟩
  · intro h
    subst h
    rfl
  · intro r hne hlk
    have hemp : w.isEmpty = false := by
      cases w with
      | nil => exact absurd rfl hne
      | cons a l => rfl
    simp [compute_weighted_observable, hemp, hlk]
  · intro hne hlk
    have hemp : w.isEmpty = false := by
      cases w with
      | nil => exact absurd rfl hne
      | cons a l => rfl
    simp [compute_weighted_observable, hemp, hlk]

/-- C4 (witness): the three branches of the weight choice, each evaluated on
a concrete cache. -/
theorem observable_weight_choice_witness :
    compute_weighted_observable [] "A" = Except.ok none ∧
    compute_weighted_observable [("A", oldRec)] "A" = Except.ok (some oldRec.weights) ∧
    compute_weighted_observable [("A", oldRec)] "B" = Except.error "KeyError" :=
  ⟨(observable_weight_choice [] "A").1 rfl,
   (observable_weight_choice [("A", oldRec)] "A").2.1 oldRec (by simp)
     (by simp [List.lookup]),
   (observable_weight_choice [("A", oldRec)] "B").2.2 (by simp)
     (by simp [List.lookup])⟩

/-- C7: while `get_effective_sample_size` walks the zipped pairs, a pair
whose reference and candidate temperatures are not exactly equal makes the
call raise the assertion immediately: the error propagates to the caller,
the weight cache holds only the updates of the pairs before the failing one,
and no weight record was computed or stored for the failing system. -/
theorem temperature_mismatch_raises {Pos : Type} (st : Session Pos)
    (ss ts : List (Sampler Pos)) (l1 l2 : List (Sampler Pos × Sampler Pos))
    (s t : Sampler Pos)
    (hs : st.samplers = some ss)
    (hsplit : ss.zip ts = l1 ++ (s, t) :: l2)
    (hT1 : ∀ p ∈ l1, p.1.temperature = p.2.temperature)
    (hst : s.temperature ≠ t.temperature) :
    (get_effective_sample_size st ts).2
        = Except.error "AssertionError: temperature mismatch" ∧
    (get_effective_sample_size st ts).1.weights = (essLoop st.weights l1).1 ∧
    (st.weights.lookup s.target_name = none →
      (∀ p ∈ l1, p.1.target_name ≠ s.target_name) →
      (get_effective_sample_size st ts).1.weights.lookup s.target_name = none) := by
  have hloop : essLoop st.weights (ss.zip ts)
      = ((essLoop st.weights l1).1, some "AssertionError: temperature mismatch") := by
    rw [hsplit, essLoop_append _ _ _ (essLoop_snd_eq_none _ _ hT1)]
    simp only [essLoop, if_neg hst]
  have hfst : (get_effective_sample_size st ts).1.weights = (essLoop st.weights l1).1 := by
    rw [get_ess_fst st ts ss hs]
    show (essLoop st.weights (ss.zip ts)).1 = _
    rw [hloop]
  refine ⟨?_, hfst, ?_⟩
  · exact get_ess_snd_err st ts ss _ hs (by rw [hloop])
  · intro h0 hl1
    rw [hfst, essLoop_lookup_not_mem _ _ _ hl1]
    exact h0

/-- C7 (witness): a single pair at 300 K versus 301 K raises the assertion
and stores nothing. -/
theorem temperature_mismatch_raises_witness :
    sEx.temperature ≠ tBad.temperature ∧
    (get_effective_sample_size st8 [tBad]).2
        = Except.error "AssertionError: temperature mismatch" ∧
    (get_effective_sample_size st8 [tBad]).1.weights.lookup sEx.target_name = none := by
  have hst : sEx.temperature ≠ tBad.temperature := by
    simp only [sEx, tBad]
    norm_num
  have h := temperature_mismatch_raises st8 [sEx] [tBad] [] [] sEx tBad rfl rfl
    (by intro p hp; cases hp) hst
  exact ⟨hst, h.1, h.2.2 rfl (by intro p hp; cases hp)⟩

/-- C10 (counterexample): with one configured sampler and an empty list of
temporary samplers the lengths differ, zero pairs are processed, and the
call raises instead of silently ignoring the excess system. -/
theorem excess_systems_with_empty_zip_raises :
    ([sEx].length ≠ ([] : List (Sampler Unit)).length) ∧
    (get_effective_sample_size st8 ([] : List (Sampler Unit))).2
      = Except.error "UnboundLocalError: neffs" :=
  ⟨by simp, get_ess_snd_empty st8 [] [sEx] rfl rfl⟩

/-- C10 (amended): when the configured and temporary sampler sequences have
different lengths, only the positional pairs up to the shorter length are
processed, and provided at least one pair remains (and its temperatures
match) no error is raised: the weight cache is updated exactly through the
zipped pairs, the number of processed pairs is the minimum of the two
lengths, and a target identifier that had no record and is not among the
zipped pairs, in particular each excess system with a fresh name, still has
no record afterwards. When the zip is empty the call raises instead. -/
theorem zip_truncation {Pos : Type} (st : Session Pos) (ss ts : List (Sampler Pos))
    (hs : st.samplers = some ss) (hne : ss.zip ts ≠ [])
    (hT : ∀ p ∈ ss.zip ts, p.1.temperature = p.2.temperature) :
    (ss.zip ts).length = min ss.length ts.length ∧
    (∃ v, (get_effective_sample_size st ts).2 = Except.ok v) ∧
    (get_effective_sample_size st ts).1.weights = (essLoop st.weights (ss.zip ts)).1 ∧
    (∀ k, st.weights.lookup k = none →
      (∀ p ∈ ss.zip ts, p.1.target_name ≠ k) →
      (get_effective_sample_size st ts).1.weights.lookup k = none) := by
  have h2 := essLoop_snd_eq_none st.weights (ss.zip ts) hT
  have hfst : (get_effective_sample_size st ts).1.weights
      = (essLoop st.weights (ss.zip ts)).1 := by
    rw [get_ess_fst st ts ss hs]
  refine ⟨List.length_zip ss ts, ⟨_, get_ess_snd_ok st ts ss hs hne h2⟩, hfst, ?_⟩
  intro k h0 hk
  rw [hfst, essLoop_lookup_not_mem _ _ _ hk]
  exact h0

/-- C10 (witness): one configured sampler zipped against two temporary
samplers processes exactly one pair and reports no error. -/
theorem zip_truncation_witness :
    ([sEx].zip [tEx, tBad]).length = min [sEx].length [tEx, tBad].length ∧
    (∃ v, (get_effective_sample_size st8 [tEx, tBad]).2 = Except.ok v) ∧
    (get_effective_sample_size st8 [tEx, tBad]).1.weights
      = (essLoop st8.weights ([sEx].zip [tEx, tBad])).1 ∧
    (get_effective_sample_size st8 [tEx, tBad]).1.weights.lookup "fresh" = none := by
  have h := zip_truncation st8 [sEx] [tEx, tBad] rfl (by simp)
    (by
      intro p hp
      simp only [List.zip_cons_cons, List.zip_nil_left, List.mem_singleton] at hp
      subst hp
      rfl)
  exact ⟨h.1, h.2.1, h.2.2.1, h.2.2.2 "fresh" rfl
    (by
      intro p hp
      simp only [List.zip_cons_cons, List.zip_nil_left, List.mem_singleton] at hp
      subst hp
      simp [sEx])⟩

/-- C1: for every pair that `get_effective_sample_size` reaches and
processes, with a trajectory of at least one frame, the record stored under
the target name of the reference sampler is `computeWeightRecord`: its
per-frame log-weights are `-1 * beta * deltaU` with `beta` computed once
from the temperature of the reference sampler and `deltaU` the candidate
minus reference potential energy in kcal/mol at identical positions, its
weights are the exponentials normalized by their sum, and its stored
effective sample size is `sum(w) ^ 2 / sum(w ^ 2) / N`, which equals
`1 / (N * sum(w ^ 2))` exactly in real arithmetic. -/
theorem ess_weight_and_neff_formula {Pos : Type} (st : Session Pos)
    (ss ts : List (Sampler Pos)) (l1 l2 : List (Sampler Pos × Sampler Pos))
    (s t : Sampler Pos)
    (hs : st.samplers = some ss)
    (hsplit : ss.zip ts = l1 ++ (s, t) :: l2)
    (hT1 : ∀ p ∈ l1, p.1.temperature = p.2.temperature)
    (hst : s.temperature = t.temperature)
    (hl2 : ∀ p ∈ l2, p.1.target_name ≠ s.target_name)
    (hN : 1 ≤ s.frames.length) :
    (get_effective_sample_size st ts).1.weights.lookup s.target_name
        = some (computeWeightRecord s t) ∧
    logWeights s t = s.frames.map (fun x =>
        -1 * (1 / (KB_T_KCALPERMOL * s.temperature)) * (t.energy x - s.energy x)) ∧
    (computeWeightRecord s t).weights
        = ((logWeights s t).map Real.exp).map
            (fun e => e / ((logWeights s t).map Real.exp).sum) ∧
    (computeWeightRecord s t).neff
        = (computeWeightRecord s t).weights.sum ^ 2
            / ((computeWeightRecord s t).weights.map (fun x => x ^ 2)).sum
            / s.frames.length ∧
    (computeWeightRecord s t).neff
        = 1 / (s.frames.length
            * ((computeWeightRecord s t).weights.map (fun x => x ^ 2)).sum) := by
  have hfr : s.frames ≠ [] := by
    intro h0
    rw [h0] at hN
    simp at hN
  refine ⟨?_, rfl, cwr_weights_def s t, ?_, cwr_neff_eq_inv s t hfr⟩
  · rw [get_ess_fst st ts ss hs]
    show (essLoop st.weights (ss.zip ts)).1.lookup s.target_name = _
    rw [hsplit]
    exact essLoop_stored_lookup st.weights l1 l2 s t hT1 hst hl2
  · rw [cwr_neff_def, cwr_weights_length]

/-- C1 (witness): the formulas evaluated on a one-frame pair with matching
temperatures. -/
theorem ess_weight_and_neff_formula_witness :
    sEx.temperature = tEx.temperature ∧
    1 ≤ sEx.frames.length ∧
    ((get_effective_sample_size st8 [tEx]).1.weights.lookup sEx.target_name
        = some (computeWeightRecord sEx tEx) ∧
      logWeights sEx tEx = sEx.frames.map (fun x =>
          -1 * (1 / (KB_T_KCALPERMOL * sEx.temperature))
            * (tEx.energy x - sEx.energy x)) ∧
      (computeWeightRecord sEx tEx).weights
          = ((logWeights sEx tEx).map Real.exp).map
              (fun e => e / ((logWeights sEx tEx).map Real.exp).sum) ∧
      (computeWeightRecord sEx tEx).neff
          = (computeWeightRecord sEx tEx).weights.sum ^ 2
              / ((computeWeightRecord sEx tEx).weights.map (fun x => x ^ 2)).sum
              / sEx.frames.length ∧
      (computeWeightRecord sEx tEx).neff
          = 1 / (sEx.frames.length
              * ((computeWeightRecord sEx tEx).weights.map (fun x => x ^ 2)).sum)) :=
  ⟨rfl, by simp [sEx],
    ess_weight_and_neff_formula st8 [sEx] [tEx] [] [] sEx tEx rfl rfl
      (by intro p hp; cases hp) rfl (by intro p hp; cases hp) (by simp [sEx])⟩

/-- C8: every weight record that `get_effective_sample_size` stores for a
processed pair with a trajectory of at least one frame has only nonnegative
weights, weights summing to 1 within 1e-9 (exactly 1 in real arithmetic), as
many weights as the reference trajectory has frames, and a stored effective
sample size strictly between 0 and 1 inclusive of 1. -/
theorem stored_record_invariants {Pos : Type} (st : Session Pos)
    (ss ts : List (Sampler Pos)) (l1 l2 : List (Sampler Pos × Sampler Pos))
    (s t : Sampler Pos)
    (hs : st.samplers = some ss)
    (hsplit : ss.zip ts = l1 ++ (s, t) :: l2)
    (hT1 : ∀ p ∈ l1, p.1.temperature = p.2.temperature)
    (hst : s.temperature = t.temperature)
    (hl2 : ∀ p ∈ l2, p.1.target_name ≠ s.target_name)
    (hN : 1 ≤ s.frames.length) :
    ∃ r, (get_effective_sample_size st ts).1.weights.lookup s.target_name = some r ∧
      (∀ x ∈ r.weights, 0 ≤ x) ∧
      |r.weights.sum - 1| ≤ 1 / 1000000000 ∧
      r.weights.length = s.frames.length ∧
      0 < r.neff ∧ r.neff ≤ 1 := by
  have hfr : s.frames ≠ [] := by
    intro h0
    rw [h0] at hN
    simp at hN
  refine ⟨computeWeightRecord s t, ?_, ?_, ?_, cwr_weights_length s t,
    cwr_neff_pos s t hfr, cwr_neff_le_one s t hfr⟩
  · rw [get_ess_fst st ts ss hs]
    show (essLoop st.weights (ss.zip ts)).1.lookup s.target_name = _
    rw [hsplit]
    exact essLoop_stored_lookup st.weights l1 l2 s t hT1 hst hl2
  · exact fun x hx => le_of_lt (cwr_weights_pos s t hfr x hx)
  · rw [cwr_weights_sum_one s t hfr]
    norm_num

/-- C8 (witness): the invariants evaluated on the one-frame pair. -/
theorem stored_record_invariants_witness :
    sEx.temperature = tEx.temperature ∧
    1 ≤ sEx.frames.length ∧
    (∃ r, (get_effective_sample_size st8 [tEx]).1.weights.lookup sEx.target_name
          = some r ∧
      (∀ x ∈ r.weights, 0 ≤ x) ∧
      |r.weights.sum - 1| ≤ 1 / 1000000000 ∧
      r.weights.length = sEx.frames.length ∧
      0 < r.neff ∧ r.neff ≤ 1) :=
  ⟨rfl, by simp [sEx],
    stored_record_invariants st8 [sEx] [tEx] [] [] sEx tEx rfl rfl
      (by intro p hp; cases hp) rfl (by intro p hp; cases hp) (by simp [sEx])⟩

/-- C3 (counterexample): a stale weight record stored under another target
identifier by an earlier pass does enter the reported minimum. Here the only
system processed in the pass stores an effective sample size of 1, yet the
call returns 1/4, the stale value cached under the key old. -/
theorem min_includes_stale_records :
    (get_effective_sample_size st3 [tEx]).2 = Except.ok (1 / 4) ∧
    (get_effective_sample_size st3 [tEx]).1.weights.lookup sEx.target_name
      = some (computeWeightRecord sEx tEx) ∧
    (computeWeightRecord sEx tEx).neff = 1 ∧
    (1 / 4 : ℝ) ≠ 1 := by
  have hloop : essLoop st3.weights ([sEx].zip [tEx])
      = ([("old", oldRec), ("A", computeWeightRecord sEx tEx)], none) := by
    show essLoop [("old", oldRec)] [(sEx, tEx)] = _
    simp only [essLoop]
    have hst : sEx.temperature = tEx.temperature := by norm_num [sEx, tEx]
    rw [if_pos hst]
    show (updateAssoc [("old", oldRec)] "A" (computeWeightRecord sEx tEx), none) = _
    simp only [updateAssoc]
    rw [if_neg (by decide : ¬("old" = "A"))]
  have hneff : (computeWeightRecord sEx tEx).neff = 1 := by
    rw [cwr_ex_eval]
  refine ⟨?_, ?_, hneff, by norm_num⟩
  · rw [get_ess_snd_ok st3 [tEx] [sEx] rfl (by simp) (by rw [hloop])]
    rw [hloop]
    simp only [List.map_cons, List.map_nil, listMin, List.foldl_cons, List.foldl_nil,
      hneff]
    rw [show oldRec.neff = 1 / 4 from rfl,
      min_eq_left (by norm_num : (1 / 4 : ℝ) ≤ 1)]
  · rw [get_ess_fst st3 [tEx] [sEx] rfl]
    show (essLoop st3.weights ([sEx].zip [tEx])).1.lookup sEx.target_name = _
    rw [hloop]
    show List.lookup "A" _ = _
    simp [List.lookup]

/-- C3 (amended): across multiple systems in one pass, the session-level
result is the minimum stored effective sample size over the whole weight
cache after the pass, which contains the records of the processed pairs
together with any records stored by earlier passes under other target
identifiers; and every pair processed in the pass, not shadowed by a later
pair of the same target name, has its weight record stored even when the
reported minimum is low. -/
theorem min_over_all_stored_records {Pos : Type} (st : Session Pos)
    (ss ts : List (Sampler Pos))
    (hs : st.samplers = some ss) (hne : ss.zip ts ≠ [])
    (hT : ∀ p ∈ ss.zip ts, p.1.temperature = p.2.temperature) :
    ∃ v, (get_effective_sample_size st ts).2 = Except.ok v ∧
      (∀ q ∈ (get_effective_sample_size st ts).1.weights, v ≤ q.2.neff) ∧
      (∃ q ∈ (get_effective_sample_size st ts).1.weights, q.2.neff = v) ∧
      (∀ l1 p l2, ss.zip ts = l1 ++ p :: l2 →
        (∀ p2 ∈ l2, p2.1.target_name ≠ p.1.target_name) →
        (get_effective_sample_size st ts).1.weights.lookup p.1.target_name
          = some (computeWeightRecord p.1 p.2)) := by
  have h2 := essLoop_snd_eq_none st.weights (ss.zip ts) hT
  have hfst : (get_effective_sample_size st ts).1.weights
      = (essLoop st.weights (ss.zip ts)).1 := by
    rw [get_ess_fst st ts ss hs]
  have hwne : (essLoop st.weights (ss.zip ts)).1 ≠ [] := by
    cases hp : ss.zip ts with
    | nil => exact absurd hp hne
    | cons p rest =>
      obtain ⟨s, t⟩ := p
      have hmem : (s, t) ∈ ss.zip ts := by
        rw [hp]
        exact List.mem_cons_self _ _
      exact essLoop_fst_ne_nil_of_pairs st.weights s t rest (hT (s, t) hmem)
  refine ⟨listMin ((essLoop st.weights (ss.zip ts)).1.map (fun p => p.2.neff)),
    get_ess_snd_ok st ts ss hs hne h2, ?_, ?_, ?_⟩
  · intro q hq
    rw [hfst] at hq
    exact listMin_le _ _ (List.mem_map_of_mem (fun p => p.2.neff) hq)
  · have hmem := listMin_mem ((essLoop st.weights (ss.zip ts)).1.map (fun p => p.2.neff))
      (by simpa using hwne)
    rcases List.mem_map.mp hmem with ⟨q, hq, hq2⟩
    exact ⟨q, by rw [hfst]; exact hq, hq2⟩
  · intro l1 p l2 hsplit hl2
    obtain ⟨s, t⟩ := p
    rw [hfst, hsplit]
    have hT1 : ∀ q ∈ l1, q.1.temperature = q.2.temperature := by
      intro q hq
      apply hT
      rw [hsplit]
      exact List.mem_append_left _ hq
    have hmem : (s, t) ∈ ss.zip ts := by
      rw [hsplit]
      exact List.mem_append_right _ (List.mem_cons_self _ _)
    exact essLoop_stored_lookup st.weights l1 l2 s t hT1 (hT (s, t) hmem) hl2

/-- C3 (witness for the amended claim): the pass over the session holding a
stale record, where the minimum 1/4 is attained by the stale entry while the
processed system stores its own record. -/
theorem min_over_all_stored_records_witness :
    ∃ v, (get_effective_sample_size st3 [tEx]).2 = Except.ok v ∧
      (∀ q ∈ (get_effective_sample_size st3 [tEx]).1.weights, v ≤ q.2.neff) ∧
      (∃ q ∈ (get_effective_sample_size st3 [tEx]).1.weights, q.2.neff = v) ∧
      (∀ l1 p l2, [sEx].zip [tEx] = l1 ++ p :: l2 →
        (∀ p2 ∈ l2, p2.1.target_name ≠ p.1.target_name) →
        (get_effective_sample_size st3 [tEx]).1.weights.lookup p.1.target_name
          = some (computeWeightRecord p.1 p.2)) :=
  min_over_all_stored_records st3 [sEx] [tEx] rfl (by simp)
    (by
      intro p hp
      simp only [List.zip_cons_cons, List.zip_nil_left, List.mem_singleton] at hp
      subst hp
      rfl)

/-- C2: each used measurement contributes
`(pred_avg - exp_value) ^ 2 / (exp_error ^ 2 + pred_std ^ 2)` to the
per-system list, the scalar loss is the arithmetic mean of that list, and on
the two-measurement scenario with experimental values 1.0 (error 0.2) and
2.0 (error missing) against predictions 0.8 (std 0.1) and 2.0 (std 0.0) the
loss is 2/5 = 0.4. -/
theorem loss_mean_and_scenario :
    compute_loss_per_system expEx predEx = Except.ok (some (2 / 5)) ∧
    (2 / 5 : ℚ) = 0.4 ∧
    (∀ pred i key m rest p ts, skipMeasurement m = false →
      lookupPred pred i key = Except.ok p →
      rowTerms pred i rest = Except.ok ts →
      rowTerms pred i ((key, m) :: rest)
        = Except.ok ((p.avg - m.value.getD 0) ^ 2
            / ((m.error.getD (1 / 2)) ^ 2 + p.std ^ 2) :: ts)) ∧
    (∀ e p ts, allTerms p 0 e = Except.ok ts → ts ≠ [] →
      compute_loss_per_system e p = Except.ok (some (ts.sum / ts.length))) := by
  refine ⟨?_, by norm_num, ?_, ?_⟩
  · have hbeq : (("k2" : String) == "k1") = false := by decide
    norm_num [compute_loss_per_system, allTerms, rowTerms, lookupPred, lossTerm,
      skipMeasurement, skipOps, torchMean, expEx, predEx, List.lookup, hbeq]
  · intro pred i key m rest p ts hskip hlk hrest
    simp [rowTerms, hskip, hlk, hrest, lossTerm]
  · intro e p ts hall hne
    rw [compute_loss_per_system, hall]
    cases ts with
    | nil => exact absurd rfl hne
    | cons x xs => rfl

/-- C2 (witness): the per-measurement term of the second scenario
measurement, whose missing error defaults, and the mean reduction of the
scenario term list. -/
theorem loss_mean_and_scenario_witness :
    rowTerms predEx 0 [("k2", mNoErr)]
      = Except.ok [(pK2.avg - mNoErr.value.getD 0) ^ 2
          / ((mNoErr.error.getD (1 / 2)) ^ 2 + pK2.std ^ 2)] ∧
    compute_loss_per_system expEx predEx
      = Except.ok (some (([4 / 5, 0] : List ℚ).sum / ([4 / 5, 0] : List ℚ).length)) :=
  ⟨loss_mean_and_scenario.2.2.1 predEx 0 "k2" mNoErr [] pK2 []
      (by norm_num [skipMeasurement, mNoErr])
      (by
        have hbeq : (("k2" : String) == "k1") = false := by decide
        norm_num [lookupPred, predEx, pK2, List.lookup, hbeq]) rfl,
   loss_mean_and_scenario.2.2.2 expEx predEx [4 / 5, 0]
      (by
        have hbeq : (("k2" : String) == "k1") = false := by decide
        norm_num [allTerms, rowTerms, lookupPred, lossTerm, skipMeasurement,
          skipOps, expEx, predEx, List.lookup, hbeq])
      (by simp)⟩

/-- C5: a measurement is skipped if and only if its value is missing or its
operator is one of the five bound operators; a measurement whose operator is
the lower bound is skipped by the loss loop regardless of its value and
error; and a used measurement with a missing error contributes its term with
the fixed default error 0.5. -/
theorem skip_condition_iff (m : Measurement) :
    (skipMeasurement m = true ↔ (m.value = none ∨
      m.operator ∈ [some ">", some "<", some ">=", some "<=", some "~"])) ∧
    (m.operator = some ">" → skipMeasurement m = true) ∧
    (∀ pred i key rest, skipMeasurement m = true →
      rowTerms pred i ((key, m) :: rest) = rowTerms pred i rest) ∧
    (∀ p, m.error = none →
      lossTerm (m.value.getD 0) m.error p
        = (p.avg - m.value.getD 0) ^ 2 / ((0.5 : ℚ) ^ 2 + p.std ^ 2)) := by
  refine ⟨?_, ?_, ?_, ?_⟩
  · cases hop : m.operator with
    | none =>
      simp [skipMeasurement, hop, Option.isNone_iff_eq_none]
    | some op =>
      simp only [skipMeasurement, hop, Bool.or_eq_true, Option.isNone_iff_eq_none,
        List.mem_cons, List.not_mem_nil, or_false, Option.some.injEq]
      constructor
      · rintro (hc | hv)
        · right
          have : op ∈ skipOps := by
            simpa [List.contains_iff_exists_mem_beq, beq_iff_eq] using hc
          simpa [skipOps, or_assoc] using this
        · exact Or.inl hv
      · rintro (hv | hops)
        · exact Or.inr hv
        · left
          have : op ∈ skipOps := by
            simp only [skipOps, List.mem_cons, List.not_mem_nil, or_false]
            tauto
          simpa [List.contains_iff_exists_mem_beq, beq_iff_eq] using this
  · intro hop
    simp [skipMeasurement, hop, skipOps]
  · intro pred i key rest hskip
    simp [rowTerms, hskip]
  · intro p herr
    rw [lossTerm, herr]
    norm_num

/-- C5 (witness): the lower-bound measurement is skipped and dropped by the
loop, and the default error is applied to the no-error measurement. -/
theorem skip_condition_iff_witness :
    skipMeasurement mGt = true ∧
    rowTerms predEx 0 [("zzz", mGt)] = rowTerms predEx 0 [] ∧
    lossTerm (mNoErr.value.getD 0) mNoErr.error pEx
      = (pEx.avg - mNoErr.value.getD 0) ^ 2 / ((0.5 : ℚ) ^ 2 + pEx.std ^ 2) :=
  ⟨(skip_condition_iff mGt).2.1 rfl,
   (skip_condition_iff mGt).2.2.1 predEx 0 "zzz" []
     ((skip_condition_iff mGt).2.1 rfl),
   (skip_condition_iff mNoErr).2.2.2 pEx rfl⟩

/-- C9: when every measurement of a system is skipped the collected term
list is empty and the loss reduction is the mean of an empty tensor, NaN
(`none` in this embedding), not an exception. -/
theorem all_skipped_gives_nan (e : List (List (String × Measurement)))
    (p : List (List (String × PredVal)))
    (h : ∀ row ∈ e, ∀ km ∈ row, skipMeasurement km.2 = true) :
    compute_loss_per_system e p = Except.ok none := by
  have hrow : ∀ (row : List (String × Measurement)) (i : Nat),
      (∀ km ∈ row, skipMeasurement km.2 = true) → rowTerms p i row = Except.ok [] := by
    intro row
    induction row with
    | nil => intro i _; rfl
    | cons km rest ih =>
      intro i hall
      obtain ⟨key, m⟩ := km
      have hskip : skipMeasurement m = true := hall (key, m) (List.mem_cons_self _ _)
      rw [rowTerms, if_pos hskip]
      exact ih i fun q hq => hall q (List.mem_cons_of_mem _ hq)
  have hall : ∀ (rows : List (List (String × Measurement))) (i : Nat),
      (∀ row ∈ rows, ∀ km ∈ row, skipMeasurement km.2 = true) →
      allTerms p i rows = Except.ok [] := by
    intro rows
    induction rows with
    | nil => intro i _; rfl
    | cons row rest ih =>
      intro i hrows
      rw [allTerms, hrow row i (hrows row (List.mem_cons_self _ _)),
        ih (i + 1) fun q hq => hrows q (List.mem_cons_of_mem _ hq)]
      rfl
  rw [compute_loss_per_system, hall e 0 h]
  rfl

/-- C9 (witness): the record whose two measurements are a missing value and
a lower bound yields the NaN marker. -/
theorem all_skipped_gives_nan_witness :
    (∀ row ∈ expN, ∀ km ∈ row, skipMeasurement km.2 = true) ∧
    compute_loss_per_system expN [] = Except.ok none :=
  ⟨by decide, all_skipped_gives_nan expN [] (by decide)⟩

end Espfit
